import Mathlib

/-!
Verification of the `@dreamer/middleware` chain execution engine
(`MiddlewareChain`, `MiddlewareManager` and the condition matcher).

The TypeScript source is shallowly embedded: the mutable context object is a
Lean structure threaded explicitly, a promise that resolves or rejects is an
`Outcome` value carrying the context (mutations made before a throw persist on
the shared object), and handler functions are a small body language covering
the shapes handlers take (code before `await next()`, code after it, throwing,
not calling `next`).  The dispatcher (`execNext`, `handleError`) is translated
statement by statement from `MiddlewareChain.execute` / `handleError`.
Wall-clock statistics recording and the external service container are not
modelled: they are never read by the dispatch or registration logic verified
here.
-/

namespace DreamerMiddleware

/-- A thrown JavaScript `Error`, identified by its message. -/
structure Err where
  message : String
deriving DecidableEq

/-- The value of `ctx.error` (`{status?, message?, ...}`).  Any such object is
truthy in the `if (ctx.error)` check, so presence is what matters. -/
structure ErrorInfo where
  status : Option Int
  message : Option String
deriving DecidableEq

/-- The middleware context.  `path`, `method` and `error` are the reserved
fields of `MiddlewareContext`; the open-ended `[key: string]: unknown` bag is
modelled by `store`, a list of strings that handlers can append observation
markers to. -/
structure Ctx where
  path : Option String
  method : Option String
  error : Option ErrorInfo
  store : List String
deriving DecidableEq

/-- `condition.path`: string (prefix), RegExp, or predicate.  A `RegExp` is an
opaque JavaScript engine object; it is modelled by its `test` predicate. -/
inductive PathCond where
  | str (s : String)
  | regex (test : String → Bool)
  | fn (f : String → Bool)

/-- `condition.method`: string (case-insensitive), string array, or predicate. -/
inductive MethodCond where
  | str (s : String)
  | arr (ms : List String)
  | fn (f : String → Bool)

/-- `MiddlewareCondition`.  The source field `match` is called `matchFn` here
(`match` is a Lean keyword). -/
structure MiddlewareCondition where
  path : Option PathCond
  method : Option MethodCond
  matchFn : Option (Ctx → Bool)

/-- `matchCondition(condition, ctx)`: sequential early-return checks for path,
method and the custom predicate, translated from the source. -/
def matchCondition (condition : MiddlewareCondition) (ctx : Ctx) : Bool :=
  -- path matching: only checked when both condition.path and ctx.path exist
  let pathFail : Bool :=
    match condition.path, ctx.path with
    | some (.str s), some p => !(p.startsWith s)
    | some (.regex t), some p => !(t p)
    | some (.fn f), some p => !(f p)
    | _, _ => false
  if pathFail then false else
  -- method matching: only checked when both condition.method and ctx.method exist
  let methodFail : Bool :=
    match condition.method, ctx.method with
    | some (.str s), some m => !(m.toLower == s.toLower)
    | some (.arr ms), some m => !(ms.any (fun x => x.toLower == m.toLower))
    | some (.fn f), some m => !(f m)
    | _, _ => false
  if methodFail then false else
  -- custom match function
  match condition.matchFn with
  | some f => f ctx
  | none => true

/-- Body of a normal middleware `(ctx, next) => ...`.  A handler may mutate the
context, call `next` at most once, and throw; the three constructors cover
throwing before calling `next`, returning without calling `next`, and the
standard shape `pre; await next(); post; (optional throw)`. -/
inductive HandlerBody where
  | throwBefore (pre : Ctx → Ctx) (e : Err)
  | noCall (act : Ctx → Ctx)
  | callThen (pre : Ctx → Ctx) (post : Ctx → Ctx) (thenThrow : Option Err)

/-- A middleware function value: its body plus its JavaScript `Function.name`
(the empty string for anonymous functions). -/
structure Middleware where
  fnName : String
  body : HandlerBody

/-- Body of an error middleware `(ctx, error, next) => ...`; the handled error
is an extra input to the context mutations. -/
inductive ErrHandlerBody where
  | throwBefore (pre : Ctx → Err → Ctx) (e : Err)
  | noCall (act : Ctx → Err → Ctx)
  | callThen (pre : Ctx → Err → Ctx) (post : Ctx → Err → Ctx) (thenThrow : Option Err)

/-- An error middleware function value. -/
structure ErrorMiddleware where
  fnName : String
  body : ErrHandlerBody

/-- `MiddlewareRegistration`. -/
structure MiddlewareRegistration where
  name : String
  middleware : Middleware
  condition : Option MiddlewareCondition

/-- `ErrorMiddlewareRegistration`. -/
structure ErrorMiddlewareRegistration where
  middleware : ErrorMiddleware
  name : String

/-- `MiddlewareChain` state: the two registration lists and the monitoring
flag.  The stats table holds wall-clock aggregates only and is never read by
dispatch; it is not modelled. -/
structure MiddlewareChain where
  middlewares : List MiddlewareRegistration
  errorMiddlewares : List ErrorMiddlewareRegistration
  enableStats : Bool

/-- Result of awaiting an async call on the shared mutable context: the
promise resolves (`ok`) or rejects (`thrown`), and in both cases the context
reflects every mutation made up to that point. -/
inductive Outcome where
  | ok (ctx : Ctx)
  | thrown (ctx : Ctx) (e : Err)
deriving DecidableEq

/-- Run a normal handler body given the shared context and the `next`
continuation.  An exception raised by `next` propagates through the handler's
`await next()` (the body language has no try/catch). -/
def runBody (body : HandlerBody) (ctx : Ctx) (next : Ctx → Outcome) : Outcome :=
  match body with
  | .throwBefore pre e => .thrown (pre ctx) e
  | .noCall act => .ok (act ctx)
  | .callThen pre post thenThrow =>
    match next (pre ctx) with
    | .thrown c e => .thrown c e
    | .ok c =>
      match thenThrow with
      | some e => .thrown (post c) e
      | none => .ok (post c)

/-- Run an error handler body given the context, the handled error and the
`next` continuation. -/
def runErrBody (body : ErrHandlerBody) (ctx : Ctx) (e : Err) (next : Ctx → Outcome) : Outcome :=
  match body with
  | .throwBefore pre e2 => .thrown (pre ctx e) e2
  | .noCall act => .ok (act ctx e)
  | .callThen pre post thenThrow =>
    match next (pre ctx e) with
    | .thrown c e2 => .thrown c e2
    | .ok c =>
      match thenThrow with
      | some e2 => .thrown (post c e) e2
      | none => .ok (post c e)

/-- The `next` continuation of `handleError`: take the error middleware at the
cursor, advance, invoke it with `(ctx, error, next)`; an exception from it is
rethrown (`catch (err) { throw err }`). -/
def handleErrorNext (e : Err) : List ErrorMiddlewareRegistration → Ctx → Outcome
  | [], ctx => .ok ctx
  | r :: rest, ctx => runErrBody r.middleware.body ctx e (fun c => handleErrorNext e rest c)

/-- `MiddlewareChain.handleError`: with no error middlewares the original
error is rethrown; otherwise the error middleware chain runs cooperatively. -/
def handleError (ehs : List ErrorMiddlewareRegistration) (ctx : Ctx) (e : Err) : Outcome :=
  if ehs.isEmpty then .thrown ctx e
  else handleErrorNext e ehs ctx

/-- The `next` continuation of `execute` over the matched middleware list
(cursor = position in the remaining suffix): if `ctx.error` is set, stop; if
the list is exhausted, stop; otherwise invoke the middleware at the cursor in
a try/catch whose catch runs `handleError` on the thrown error. -/
def execNext (ehs : List ErrorMiddlewareRegistration) :
    List MiddlewareRegistration → Ctx → Outcome
  | ms, ctx =>
    if ctx.error.isSome then .ok ctx
    else
      match ms with
      | [] => .ok ctx
      | r :: rest =>
        match runBody r.middleware.body ctx (fun c => execNext ehs rest c) with
        | .ok c => .ok c
        | .thrown c e => handleError ehs c e

/-- `MiddlewareChain.matches`: no condition always matches, otherwise defer to
`matchCondition`. -/
def regMatches (r : MiddlewareRegistration) (ctx : Ctx) : Bool :=
  match r.condition with
  | none => true
  | some cond => matchCondition cond ctx

/-- `MiddlewareChain.execute(ctx)`: filter the matching middlewares once, then
drive the continuation chain. -/
def MiddlewareChain.execute (c : MiddlewareChain) (ctx : Ctx) : Outcome :=
  let matchedMiddlewares := c.middlewares.filter (fun r => regMatches r ctx)
  execNext c.errorMiddlewares matchedMiddlewares ctx

/-- JavaScript `a || b` on strings: the empty string is falsy. -/
def jsOr (a b : String) : String := if a = "" then b else a

/-- Name resolution `name || middleware.name || auto` shared by `use`,
`useError`, `insertBefore` and `insertAfter` (an absent argument behaves like
the empty string). -/
def resolveName (nm : Option String) (fnName : String) (auto : String) : String :=
  jsOr (nm.getD "") (jsOr fnName auto)

/-- The duplicate-registration error message thrown by `use` and the insert
methods. -/
def dupMsg (name : String) : String :=
  "中间件 \"" ++ name ++ "\" 已存在，不能重复注册"

/-- The duplicate-registration error message thrown by `useError`. -/
def dupErrMsg (name : String) : String :=
  "错误处理中间件 \"" ++ name ++ "\" 已存在，不能重复注册"

/-- `MiddlewareChain.use` (after overload resolution): resolve the name, throw
on a duplicate among normal middlewares, otherwise push the registration.  The
returned chain is the object state after the call (unchanged when the error is
thrown, since the check precedes the push). -/
def MiddlewareChain.use (c : MiddlewareChain) (middleware : Middleware)
    (condition : Option MiddlewareCondition) (nm : Option String) :
    MiddlewareChain × Option Err :=
  let middlewareName :=
    resolveName nm middleware.fnName ("middleware-" ++ toString c.middlewares.length)
  if c.middlewares.any (fun m => m.name == middlewareName) then
    (c, some ⟨dupMsg middlewareName⟩)
  else
    ({ c with middlewares :=
        c.middlewares ++ [⟨middlewareName, middleware, condition⟩] }, none)

/-- `MiddlewareChain.useError`: same pattern in the separate error-middleware
namespace. -/
def MiddlewareChain.useError (c : MiddlewareChain) (middleware : ErrorMiddleware)
    (nm : Option String) : MiddlewareChain × Option Err :=
  let middlewareName :=
    resolveName nm middleware.fnName
      ("error-middleware-" ++ toString c.errorMiddlewares.length)
  if c.errorMiddlewares.any (fun m => m.name == middlewareName) then
    (c, some ⟨dupErrMsg middlewareName⟩)
  else
    ({ c with errorMiddlewares :=
        c.errorMiddlewares ++ [⟨middleware, middlewareName⟩] }, none)

/-- `array.splice(i, 0, r)`: insert `r` at position `i`. -/
def spliceAt (l : List MiddlewareRegistration) (i : Nat)
    (r : MiddlewareRegistration) : List MiddlewareRegistration :=
  l.take i ++ [r] ++ l.drop i

/-- `MiddlewareChain.insertBefore`: missing target returns `false` (no
exception); a duplicate resolved name throws; otherwise splice before the
target. -/
def MiddlewareChain.insertBefore (c : MiddlewareChain) (targetName : String)
    (middleware : Middleware) (condition : Option MiddlewareCondition)
    (nm : Option String) : MiddlewareChain × Except Err Bool :=
  match c.middlewares.findIdx? (fun m => m.name == targetName) with
  | none => (c, .ok false)
  | some targetIndex =>
    let middlewareName :=
      resolveName nm middleware.fnName ("middleware-" ++ toString c.middlewares.length)
    if c.middlewares.any (fun m => m.name == middlewareName) then
      (c, .error ⟨dupMsg middlewareName⟩)
    else
      ({ c with middlewares :=
          spliceAt c.middlewares targetIndex ⟨middlewareName, middleware, condition⟩ },
        .ok true)

/-- `MiddlewareChain.insertAfter`: as `insertBefore`, splicing at
`targetIndex + 1`. -/
def MiddlewareChain.insertAfter (c : MiddlewareChain) (targetName : String)
    (middleware : Middleware) (condition : Option MiddlewareCondition)
    (nm : Option String) : MiddlewareChain × Except Err Bool :=
  match c.middlewares.findIdx? (fun m => m.name == targetName) with
  | none => (c, .ok false)
  | some targetIndex =>
    let middlewareName :=
      resolveName nm middleware.fnName ("middleware-" ++ toString c.middlewares.length)
    if c.middlewares.any (fun m => m.name == middlewareName) then
      (c, .error ⟨dupMsg middlewareName⟩)
    else
      ({ c with middlewares :=
          spliceAt c.middlewares (targetIndex + 1) ⟨middlewareName, middleware, condition⟩ },
        .ok true)

/-- `findIndex` + `splice(index, 1)`: remove the first registration with the
given name, reporting whether one was found. -/
def removeFirstByName (n : String) :
    List MiddlewareRegistration → Bool × List MiddlewareRegistration
  | [] => (false, [])
  | r :: rs =>
    if r.name == n then (true, rs)
    else
      let p := removeFirstByName n rs
      (p.1, r :: p.2)

/-- `MiddlewareChain.remove` (the stats entry it also discards is not
modelled). -/
def MiddlewareChain.remove (c : MiddlewareChain) (n : String) :
    Bool × MiddlewareChain :=
  let p := removeFirstByName n c.middlewares
  if p.1 then (true, { c with middlewares := p.2 }) else (false, c)

/-- `MiddlewareChain.listMiddlewares`. -/
def MiddlewareChain.listMiddlewares (c : MiddlewareChain) : List String :=
  c.middlewares.map (fun m => m.name)

/-- `MiddlewareChain.getMiddlewareCount`. -/
def MiddlewareChain.getMiddlewareCount (c : MiddlewareChain) : Nat :=
  c.middlewares.length

/-- `MiddlewareChain.hasMiddleware`. -/
def MiddlewareChain.hasMiddleware (c : MiddlewareChain) (n : String) : Bool :=
  c.middlewares.any (fun m => m.name == n)

/-- `MiddlewareDefinition` (manager level): name, handler, optional condition,
priority (default 100) and chain name (default "default"). -/
structure MiddlewareDefinition where
  name : String
  handler : Middleware
  condition : Option MiddlewareCondition
  priority : Option Int
  chain : Option String

/-- `ErrorMiddlewareDefinition`. -/
structure ErrorMiddlewareDefinition where
  name : String
  handler : ErrorMiddleware
  chain : Option String

/-- `MiddlewareManagerOptions`. -/
structure MiddlewareManagerOptions where
  enablePerformanceMonitoring : Option Bool
  continueOnError : Option Bool

/-- `MiddlewareManager` state: the chain registry and the definition table
(JavaScript `Map`s, modelled as insertion-ordered association lists) plus the
two resolved options.  Registration of the manager and of each chain into the
external service container is a side effect on an excluded collaborator and is
not modelled. -/
structure MiddlewareManager where
  chains : List (String × MiddlewareChain)
  definitions : List (String × MiddlewareDefinition)
  enablePerformanceMonitoring : Bool
  continueOnError : Bool

/-- `Map.get`. -/
def mapGet {α : Type} : List (String × α) → String → Option α
  | [], _ => none
  | p :: ps, k => if p.1 == k then some p.2 else mapGet ps k

/-- `Map.set`: replace the value at an existing key in place, else append. -/
def mapSet {α : Type} : List (String × α) → String → α → List (String × α)
  | [], k, v => [(k, v)]
  | p :: ps, k, v => if p.1 == k then (k, v) :: ps else p :: mapSet ps k v

/-- `Map.delete`: drop the entry with the given key, if any. -/
def mapDelete {α : Type} : List (String × α) → String → List (String × α)
  | [], _ => []
  | p :: ps, k => if p.1 == k then ps else p :: mapDelete ps k

/-- The `MiddlewareManager` constructor: resolve the options with their
defaults (`enablePerformanceMonitoring ?? false`, `continueOnError ?? true`)
and start with empty registries. -/
def mkManager (options : MiddlewareManagerOptions) : MiddlewareManager :=
  { chains := []
    definitions := []
    enablePerformanceMonitoring := options.enablePerformanceMonitoring.getD false
    continueOnError := options.continueOnError.getD true }

/-- `getOrCreateChain`: fetch the named chain, or create a fresh one (applying
the manager's current monitoring default) and record it in the registry. -/
def getOrCreateChain (m : MiddlewareManager) (chainName : String) :
    MiddlewareChain × MiddlewareManager :=
  match mapGet m.chains chainName with
  | some chain => (chain, m)
  | none =>
    let chain : MiddlewareChain :=
      { middlewares := []
        errorMiddlewares := []
        enableStats := m.enablePerformanceMonitoring }
    (chain, { m with chains := mapSet m.chains chainName chain })

/-- `MiddlewareManager.register`: reject a name already present in the
definition table, otherwise store the normalized definition, get or create the
target chain and forward to its `use`.  In the source the definition is stored
before `use` runs, so a `use` failure leaves the definition behind; the
returned manager reflects that. -/
def MiddlewareManager.register (m : MiddlewareManager)
    (definition : MiddlewareDefinition) : MiddlewareManager × Option Err :=
  let priority := definition.priority.getD 100
  let chainName := definition.chain.getD "default"
  if (mapGet m.definitions definition.name).isSome then
    (m, some ⟨dupMsg definition.name⟩)
  else
    let dd := { definition with priority := some priority, chain := some chainName }
    let m1 := { m with definitions := mapSet m.definitions definition.name dd }
    let p := getOrCreateChain m1 chainName
    let q := p.1.use definition.handler definition.condition (some definition.name)
    match q.2 with
    | some e => (p.2, some e)
    | none => ({ p.2 with chains := mapSet p.2.chains chainName q.1 }, none)

/-- `MiddlewareManager.registerError`: forward to the target chain's
`useError` (no manager-wide uniqueness check). -/
def MiddlewareManager.registerError (m : MiddlewareManager)
    (definition : ErrorMiddlewareDefinition) : MiddlewareManager × Option Err :=
  let chainName := definition.chain.getD "default"
  let p := getOrCreateChain m chainName
  let q := p.1.useError definition.handler (some definition.name)
  match q.2 with
  | some e => (p.2, some e)
  | none => ({ p.2 with chains := mapSet p.2.chains chainName q.1 }, none)

/-- The effective priority `definition.priority ?? 100`. -/
def prioOf (d : MiddlewareDefinition) : Int := d.priority.getD 100

/-- Insert a definition into a priority-ascending list, before the first entry
of greater-or-equal priority. -/
def insertSorted (d : MiddlewareDefinition) :
    List MiddlewareDefinition → List MiddlewareDefinition
  | [] => [d]
  | e :: es => if prioOf d ≤ prioOf e then d :: e :: es else e :: insertSorted d es

/-- `[...definitions].sort((a, b) => (a.priority ?? 100) - (b.priority ?? 100))`.
ECMA-262 requires `Array.prototype.sort` to be stable, so this comparator
yields the stable ascending order by priority, modelled by stable insertion
sort. -/
def sortByPriority : List MiddlewareDefinition → List MiddlewareDefinition
  | [] => []
  | d :: ds => insertSorted d (sortByPriority ds)

/-- The `for` loop in `registerAll`: register in order, a thrown error aborts
the remainder. -/
def registerMany (m : MiddlewareManager) :
    List MiddlewareDefinition → MiddlewareManager × Option Err
  | [] => (m, none)
  | d :: ds =>
    let p := m.register d
    match p.2 with
    | some e => (p.1, some e)
    | none => registerMany p.1 ds

/-- `MiddlewareManager.registerAll`: stable sort by priority, then register
each definition in that order. -/
def MiddlewareManager.registerAll (m : MiddlewareManager)
    (definitions : List MiddlewareDefinition) : MiddlewareManager × Option Err :=
  registerMany m (sortByPriority definitions)

/-- `MiddlewareManager.remove`: look up the owning chain through the stored
definition, remove from the chain and from the definition table. -/
def MiddlewareManager.remove (m : MiddlewareManager) (n : String) :
    MiddlewareManager × Bool :=
  match mapGet m.definitions n with
  | none => (m, false)
  | some definition =>
    let chainName := definition.chain.getD "default"
    let m1 :=
      match mapGet m.chains chainName with
      | none => m
      | some chain =>
        let p := chain.remove n
        { m with chains := mapSet m.chains chainName p.2 }
    ({ m1 with definitions := mapDelete m1.definitions n }, true)

/-- `MiddlewareManager.execute(ctx, chainName)`: a missing chain is a silent
no-op, otherwise run that chain. -/
def MiddlewareManager.execute (m : MiddlewareManager) (ctx : Ctx)
    (chainName : String) : Outcome :=
  match mapGet m.chains chainName with
  | none => .ok ctx
  | some chain => chain.execute ctx

/-- `MiddlewareManager.listByChain`. -/
def MiddlewareManager.listByChain (m : MiddlewareManager) (chainName : String) :
    List String :=
  match mapGet m.chains chainName with
  | none => []
  | some chain => chain.listMiddlewares

/-- One observable call on a manager, for comparing managers behaviorally:
registrations, removal, and execution. -/
inductive MgrOp where
  | reg (d : MiddlewareDefinition)
  | regError (d : ErrorMiddlewareDefinition)
  | regAll (ds : List MiddlewareDefinition)
  | rem (n : String)
  | exec (ctx : Ctx) (chainName : String)

/-- The caller-visible result of one manager call. -/
inductive MgrObs where
  | regResult (e : Option Err)
  | boolResult (b : Bool)
  | execResult (o : Outcome)
deriving DecidableEq

/-- Apply one manager call, yielding the new state and the observation. -/
def stepOp (m : MiddlewareManager) : MgrOp → MiddlewareManager × MgrObs
  | .reg d => let p := m.register d; (p.1, .regResult p.2)
  | .regError d => let p := m.registerError d; (p.1, .regResult p.2)
  | .regAll ds => let p := m.registerAll ds; (p.1, .regResult p.2)
  | .rem n => let p := m.remove n; (p.1, .boolResult p.2)
  | .exec ctx n => (m, .execResult (m.execute ctx n))

/-- Run a sequence of manager calls, collecting the observations. -/
def runOps (m : MiddlewareManager) : List MgrOp → List MgrObs
  | [] => []
  | op :: ops =>
    let p := stepOp m op
    p.2 :: runOps p.1 ops

/-! Handler families used to observe execution order.  Handlers record marker
strings in the context's open data bag (`store`); a handler's "code" is such a
recording action. -/

/-- Append a marker to the context's data bag. -/
def pushStore (a : String) (c : Ctx) : Ctx := { c with store := c.store ++ [a] }

/-- The unconditioned registration `use` installs for a pass-through handler
that records `p.1` before its `await next()` and `p.2` after it. -/
def wrapReg (p : String × String) : MiddlewareRegistration :=
  ⟨p.1, ⟨"", .callThen (pushStore p.1) (pushStore p.2) none⟩, none⟩

/-- An unconditioned handler that records `a` and then throws `e` (it never
calls `next`). -/
def throwReg (a : String) (e : Err) : MiddlewareRegistration :=
  ⟨a, ⟨"", .throwBefore (pushStore a) e⟩, none⟩

/-- An unconditioned handler that first sets `ctx.error` and then calls its
continuation. -/
def setErrorReg (info : ErrorInfo) : MiddlewareRegistration :=
  ⟨"setter", ⟨"", .callThen (fun c => { c with error := some info }) id none⟩, none⟩

/-- A cooperative error handler: it records its first label tagged with the
handled error's message, awaits `next()`, then records its second label, and
never throws. -/
def ehWrapReg (p : String × String) : ErrorMiddlewareRegistration :=
  ⟨⟨"", .callThen (fun c e => pushStore (p.1 ++ e.message) c)
        (fun c e => pushStore (p.2 ++ e.message) c) none⟩, p.1⟩

/-- An error handler that records its label tagged with the handled error's
message and then throws the fresh error `e2`. -/
def ehThrowReg (u : String) (e2 : Err) : ErrorMiddlewareRegistration :=
  ⟨⟨"", .throwBefore (fun c e => pushStore (u ++ e.message) c) e2⟩, u⟩

/-- An empty context with no path, method, error or recorded data. -/
def ctx0 : Ctx := ⟨none, none, none, []⟩

/-- A do-nothing middleware used when only registration metadata matters. -/
def noopMw : Middleware := ⟨"", .callThen id id none⟩

/-- The spec's priority example: definitions arriving with priorities
200, 50, 100 in that array order. -/
def defsPriority : List MiddlewareDefinition :=
  [⟨"a", noopMw, none, some 200, none⟩,
   ⟨"b", noopMw, none, some 50, none⟩,
   ⟨"c", noopMw, none, some 100, none⟩]

/-- A second anonymous middleware function, distinct from `noopMw` and never
registered in the scenario below until its final step. -/
def noopMw2 : Middleware := ⟨"", .noCall id⟩

/-- Anonymous-name scenario, step 1: `use` an anonymous handler on an empty
chain. -/
def anonStep1 : MiddlewareChain × Option Err :=
  MiddlewareChain.use ⟨[], [], false⟩ noopMw none none

/-- Step 2: `use` a second anonymous handler. -/
def anonStep2 : MiddlewareChain × Option Err :=
  anonStep1.1.use noopMw none none

/-- Step 3: remove the first auto-named handler. -/
def anonStep3 : Bool × MiddlewareChain :=
  anonStep2.1.remove "middleware-0"

/-- Step 4: `use` a fresh anonymous handler on the shrunken chain. -/
def anonStep4 : MiddlewareChain × Option Err :=
  anonStep3.2.use noopMw2 none none

/-- Spec-side restatement (from the claim's words): the path constraint is
satisfied iff `ctx.path` is absent, or no path constraint is present, or the
present constraint holds of the path — string form is a prefix test, RegExp
form a pattern test, function form its boolean result. -/
def pathConstraintSat (condition : MiddlewareCondition) (ctx : Ctx) : Bool :=
  match ctx.path with
  | none => true
  | some p =>
    match condition.path with
    | none => true
    | some (.str s) => p.startsWith s
    | some (.regex t) => t p
    | some (.fn f) => f p

/-- Spec-side restatement: the method constraint is satisfied iff `ctx.method`
is absent, or no method constraint is present, or the present constraint holds
of the method — case-insensitive equality for the string form, case-insensitive
membership for the array form, the boolean result for the function form. -/
def methodConstraintSat (condition : MiddlewareCondition) (ctx : Ctx) : Bool :=
  match ctx.method with
  | none => true
  | some mth =>
    match condition.method with
    | none => true
    | some (.str s) => mth.toLower == s.toLower
    | some (.arr ms) => ms.any (fun x => x.toLower == mth.toLower)
    | some (.fn f) => f mth

/-- Spec-side restatement: the custom `match` predicate, when present, must
also return true. -/
def customConstraintSat (condition : MiddlewareCondition) (ctx : Ctx) : Bool :=
  match condition.matchFn with
  | some f => f ctx
  | none => true

/-- A chain with a pass-through handler A awaiting its continuation, a second
handler B that throws `e1`, and a single error handler that records "E" tagged
with the error it receives and then throws `e2`. -/
def ehCascadeChain : MiddlewareChain :=
  { middlewares := [wrapReg ("A-pre", "A-post"), throwReg "B" ⟨"e1"⟩]
    errorMiddlewares := [ehThrowReg "E" ⟨"e2"⟩]
    enableStats := false }

/-! Dispatch lemmas shared by the claims. -/

/-- The filter step of `execute` keeps every condition-free registration. -/
theorem filter_of_condition_none (ctx : Ctx) (l : List MiddlewareRegistration)
    (h : ∀ r ∈ l, r.condition = none) :
    l.filter (fun r => regMatches r ctx) = l := by
  induction l with
  | nil => rfl
  | cons r rest ih =>
    have hr : r.condition = none := h r (List.mem_cons_self r rest)
    have hrest : ∀ x ∈ rest, x.condition = none :=
      fun x hx => h x (List.mem_cons_of_mem r hx)
    have hm : regMatches r ctx = true := by simp [regMatches, hr]
    rw [List.filter_cons, ih hrest, hm]
    simp

/-- `next` stops as soon as `ctx.error` is set: no handler is invoked and the
context is returned untouched. -/
theorem execNext_stops_on_error (ehs : List ErrorMiddlewareRegistration)
    (ms : List MiddlewareRegistration) (ctx : Ctx)
    (h : ctx.error.isSome = true) :
    execNext ehs ms ctx = .ok ctx := by
  cases ms <;> simp [execNext, h]

/-- Running a list of marker-recording pass-through handlers appends the
"before" markers in list order and the "after" markers in reverse list
order. -/
theorem execNext_wraps (ehs : List ErrorMiddlewareRegistration)
    (ps : List (String × String)) (ctx : Ctx) (h : ctx.error = none) :
    execNext ehs (ps.map wrapReg) ctx
      = .ok { ctx with store := ctx.store ++ ps.map Prod.fst ++ (ps.map Prod.snd).reverse } := by
  induction ps generalizing ctx with
  | nil =>
    cases ctx
    simp_all [execNext]
  | cons p rest ih =>
    have hstep := ih (pushStore p.1 ctx) h
    simp only [pushStore, h] at hstep
    simp [execNext, h, wrapReg, runBody, pushStore, hstep, List.append_assoc]

/-- C1: for every sequence of unconditioned pass-through handlers registered
via `use` (and any error-middleware list), `execute` runs each handler's code
before its `await next()` in registration order and the code after its
`await next()` in reverse registration order: the recorded marker sequence is
the "before" markers in list order followed by the "after" markers reversed,
e.g. handlers A then B observe [A-pre, B-pre, B-post, A-post]. -/
theorem c1_nested_ordering (ps : List (String × String))
    (ehs : List ErrorMiddlewareRegistration) (es : Bool) (ctx : Ctx)
    (h : ctx.error = none) :
    MiddlewareChain.execute ⟨ps.map wrapReg, ehs, es⟩ ctx
      = .ok { ctx with store :=
          ctx.store ++ ps.map Prod.fst ++ (ps.map Prod.snd).reverse } := by
  have hfilter : (ps.map wrapReg).filter (fun r => regMatches r ctx) = ps.map wrapReg := by
    apply filter_of_condition_none
    intro r hr
    obtain ⟨p, _, rfl⟩ := List.mem_map.mp hr
    rfl
  simp only [MiddlewareChain.execute]
  rw [hfilter]
  exact execNext_wraps ehs ps ctx h

/-- Witness for C1: handlers A then B observe [A-pre, B-pre, B-post, A-post]. -/
theorem c1_nested_ordering_witness :
    MiddlewareChain.execute
        ⟨[("A-pre", "A-post"), ("B-pre", "B-post")].map wrapReg, [], false⟩ ctx0
      = .ok ⟨none, none, none, ["A-pre", "B-pre", "B-post", "A-post"]⟩ := by
  simpa [ctx0] using
    c1_nested_ordering [("A-pre", "A-post"), ("B-pre", "B-post")] [] false ctx0 rfl

/-- C2: every call of the `next` continuation first checks `ctx.error` and
stops without invoking any further handler when it is set (first conjunct);
consequently a handler that sets `ctx.error` and then calls its continuation
results in no subsequent matching handler running (second conjunct). -/
theorem c2_error_halts_pipeline :
    (∀ (ehs : List ErrorMiddlewareRegistration) (ms : List MiddlewareRegistration)
        (ctx : Ctx), ctx.error.isSome = true → execNext ehs ms ctx = .ok ctx) ∧
    (∀ (ehs : List ErrorMiddlewareRegistration) (rest : List MiddlewareRegistration)
        (es : Bool) (info : ErrorInfo) (ctx : Ctx), ctx.error = none →
      MiddlewareChain.execute ⟨setErrorReg info :: rest, ehs, es⟩ ctx
        = .ok { ctx with error := some info }) := by
  constructor
  · exact execNext_stops_on_error
  · intro ehs rest es info ctx h
    have hm : regMatches (setErrorReg info) ctx = true := rfl
    simp only [MiddlewareChain.execute, List.filter_cons, hm, if_true]
    simp [execNext, h, setErrorReg, runBody, execNext_stops_on_error]

/-- Witness for C2: with `ctx.error` set, `next` over a nonempty handler list
returns the context untouched; and a chain [error-setter, B] never runs B. -/
theorem c2_error_halts_pipeline_witness :
    execNext [] [wrapReg ("B-pre", "B-post")] ⟨none, none, some ⟨none, some "x"⟩, []⟩
      = .ok ⟨none, none, some ⟨none, some "x"⟩, []⟩ ∧
    MiddlewareChain.execute
        ⟨[setErrorReg ⟨none, some "x"⟩, wrapReg ("B-pre", "B-post")], [], false⟩ ctx0
      = .ok { ctx0 with error := some ⟨none, some "x"⟩ } :=
  ⟨c2_error_halts_pipeline.1 [] _ _ rfl,
   c2_error_halts_pipeline.2 [] _ false _ ctx0 rfl⟩

/-- Cooperative marker error handlers run in registration order, each invoked
with the handled error: before-markers tagged with the error's message appear
in order, after-markers in reverse order. -/
theorem handleErrorNext_wraps (qs : List (String × String)) (ctx : Ctx) (e : Err) :
    handleErrorNext e (qs.map ehWrapReg) ctx
      = .ok { ctx with store := ctx.store ++ qs.map (fun q => q.1 ++ e.message)
          ++ (qs.map (fun q => q.2 ++ e.message)).reverse } := by
  induction qs generalizing ctx with
  | nil => simp [handleErrorNext]
  | cons q rest ih =>
    have hstep := ih (pushStore (q.1 ++ e.message) ctx)
    simp only [pushStore] at hstep
    simp [handleErrorNext, ehWrapReg, runErrBody, pushStore, hstep, List.append_assoc]

/-- Running a single marker-then-throw handler against a nonempty list of
cooperative error handlers: the error handlers recover and `next` resolves. -/
theorem execNext_thrower_recovered (qs : List (String × String)) (a : String)
    (e : Err) (hqs : qs ≠ []) (pa me : Option String) (s : List String) :
    execNext (qs.map ehWrapReg) [throwReg a e] ⟨pa, me, none, s⟩
      = .ok ⟨pa, me, none, s ++ ([a] ++ qs.map (fun q => q.1 ++ e.message)
          ++ (qs.map (fun q => q.2 ++ e.message)).reverse)⟩ := by
  cases qs with
  | nil => exact absurd rfl hqs
  | cons q rest =>
    have hw := handleErrorNext_wraps (q :: rest) ⟨pa, me, none, s ++ [a]⟩ e
    simp only [List.map_cons] at hw
    simp [execNext, throwReg, runBody, pushStore, handleError, hw,
      List.append_assoc]

/-- Running a single marker-then-throw handler with no error handlers: the
original error is rethrown out of `next`. -/
theorem execNext_thrower_unhandled (a : String) (e : Err)
    (pa me : Option String) (s : List String) :
    execNext [] [throwReg a e] ⟨pa, me, none, s⟩
      = .thrown ⟨pa, me, none, s ++ [a]⟩ e := by
  simp [execNext, throwReg, runBody, pushStore, handleError]

/-- Marker pass-through handlers compose around any tail whose execution
appends a fixed suffix and resolves: the tail's effect lands between the
prefix's before-markers and its reversed after-markers. -/
theorem execNext_wraps_append_ok (ehs : List ErrorMiddlewareRegistration)
    (ps : List (String × String)) (tail : List MiddlewareRegistration)
    (T : List String) (ctx : Ctx) (h : ctx.error = none)
    (htail : ∀ (pa me : Option String) (s : List String),
      execNext ehs tail ⟨pa, me, none, s⟩ = .ok ⟨pa, me, none, s ++ T⟩) :
    execNext ehs (ps.map wrapReg ++ tail) ctx
      = .ok { ctx with store :=
          ctx.store ++ ps.map Prod.fst ++ T ++ (ps.map Prod.snd).reverse } := by
  induction ps generalizing ctx with
  | nil =>
    cases ctx with
    | mk pa me er st =>
      cases h
      simpa using htail pa me st
  | cons p rest ih =>
    have hstep := ih (pushStore p.1 ctx) h
    simp only [pushStore, h] at hstep
    simp [execNext, h, wrapReg, runBody, pushStore, hstep, List.append_assoc]

/-- Marker pass-through handlers with no error handlers registered propagate a
rejection from the tail: each level's catch reruns `handleError`, which
rethrows the same error, and no after-marker is recorded. -/
theorem execNext_wraps_append_thrown (ps : List (String × String))
    (tail : List MiddlewareRegistration) (T : List String) (e : Err)
    (ctx : Ctx) (h : ctx.error = none)
    (htail : ∀ (pa me : Option String) (s : List String),
      execNext [] tail ⟨pa, me, none, s⟩ = .thrown ⟨pa, me, none, s ++ T⟩ e) :
    execNext [] (ps.map wrapReg ++ tail) ctx
      = .thrown { ctx with store := ctx.store ++ ps.map Prod.fst ++ T } e := by
  induction ps generalizing ctx with
  | nil =>
    cases ctx with
    | mk pa me er st =>
      cases h
      simpa using htail pa me st
  | cons p rest ih =>
    have hstep := ih (pushStore p.1 ctx) h
    simp only [pushStore, h] at hstep
    simp [execNext, h, wrapReg, runBody, pushStore, hstep, handleError,
      List.append_assoc]

/-- C3: under pass-through handlers, a handler that throws `e` routes to the
error handlers.  With at least one (cooperative) error handler registered they
run in registration order, each receiving the thrown error (markers tagged
with `e.message`), and `execute` resolves; with zero error handlers `execute`
rejects with that same error. -/
theorem c3_error_routing (ps qs : List (String × String)) (a : String) (e : Err)
    (es : Bool) (ctx : Ctx) (h : ctx.error = none) :
    (qs ≠ [] →
      MiddlewareChain.execute
          ⟨ps.map wrapReg ++ [throwReg a e], qs.map ehWrapReg, es⟩ ctx
        = .ok { ctx with store := ctx.store ++ ps.map Prod.fst
            ++ ([a] ++ qs.map (fun q => q.1 ++ e.message)
              ++ (qs.map (fun q => q.2 ++ e.message)).reverse)
            ++ (ps.map Prod.snd).reverse }) ∧
    MiddlewareChain.execute ⟨ps.map wrapReg ++ [throwReg a e], [], es⟩ ctx
      = .thrown { ctx with store := ctx.store ++ ps.map Prod.fst ++ [a] } e := by
  have hfilter : ∀ ctx' : Ctx,
      (ps.map wrapReg ++ [throwReg a e]).filter (fun r => regMatches r ctx')
        = ps.map wrapReg ++ [throwReg a e] := by
    intro ctx'
    apply filter_of_condition_none
    intro r hr
    rcases List.mem_append.mp hr with hl | hl
    · obtain ⟨p, _, rfl⟩ := List.mem_map.mp hl
      rfl
    · rcases List.mem_singleton.mp hl with rfl
      rfl
  constructor
  · intro hqs
    simp only [MiddlewareChain.execute]
    rw [hfilter]
    exact execNext_wraps_append_ok _ ps _ _ ctx h
      (fun pa me s => execNext_thrower_recovered qs a e hqs pa me s)
  · simp only [MiddlewareChain.execute]
    rw [hfilter]
    have := execNext_wraps_append_thrown ps [throwReg a e] [a] e ctx h
      (fun pa me s => execNext_thrower_unhandled a e pa me s)
    simpa using this

/-- Witness for C3: chain [A, thrower], one error handler E1; E1 observes the
thrown error "boom" and `execute` resolves; with no error handler, `execute`
rejects with "boom". -/
theorem c3_error_routing_witness :
    MiddlewareChain.execute
        ⟨[("A-pre", "A-post")].map wrapReg ++ [throwReg "T" ⟨"boom"⟩],
          [("E1-", "E1x-")].map ehWrapReg, false⟩ ctx0
      = .ok ⟨none, none, none, ["A-pre", "T", "E1-boom", "E1x-boom", "A-post"]⟩ ∧
    MiddlewareChain.execute
        ⟨[("A-pre", "A-post")].map wrapReg ++ [throwReg "T" ⟨"boom"⟩], [], false⟩ ctx0
      = .thrown ⟨none, none, none, ["A-pre", "T"]⟩ ⟨"boom"⟩ := by
  have h := c3_error_routing [("A-pre", "A-post")] [("E1-", "E1x-")] "T"
    ⟨"boom"⟩ false ctx0 rfl
  constructor
  · simpa [ctx0] using h.1 (by simp)
  · simpa [ctx0] using h.2

/-- Within one `handleError` pass, cooperative error handlers followed by one
that throws `e2`: the pass stops at the throw, later error handlers (`rest`,
arbitrary) are never consulted, the earlier handlers' after-markers never run,
and the pass rejects with `e2`. -/
theorem handleErrorNext_wraps_then_throw (qs : List (String × String))
    (u : String) (e2 : Err) (rest : List ErrorMiddlewareRegistration)
    (e : Err) (ctx : Ctx) :
    handleErrorNext e (qs.map ehWrapReg ++ ehThrowReg u e2 :: rest) ctx
      = .thrown { ctx with store := ctx.store ++ qs.map (fun q => q.1 ++ e.message)
          ++ [u ++ e.message] } e2 := by
  induction qs generalizing ctx with
  | nil => simp [handleErrorNext, ehThrowReg, runErrBody, pushStore]
  | cons q qrest ih =>
    have hstep := ih (pushStore (q.1 ++ e.message) ctx)
    simp only [pushStore] at hstep
    simp [handleErrorNext, ehWrapReg, runErrBody, pushStore, hstep,
      List.append_assoc]

/-- C4 counterexample: in `ehCascadeChain`, handler B throws e1 under handler
A (which is awaiting its continuation), and the sole error handler records
"E" tagged with the error it receives and throws e2.  The claim says that
once the error handler throws, e2 propagates out of `execute` immediately and
no further error handler runs — so the trace would end at "Ee1".  Instead the
enclosing level's catch re-invokes the error-handler chain with e2, so the
error handler runs a second time, recording "Ee2", before `execute` rejects. -/
theorem c4_counterexample :
    MiddlewareChain.execute ehCascadeChain ctx0
      = .thrown ⟨none, none, none, ["A-pre", "B", "Ee1", "Ee2"]⟩ ⟨"e2"⟩ ∧
    (["A-pre", "B", "Ee1", "Ee2"] : List String) ≠ ["A-pre", "B", "Ee1"] := by
  constructor
  · rfl
  · decide

/-- C4 amended: when an error handler throws `e2` while handling `e`, the
current error-handling pass stops immediately — no error handler after the
throwing one runs in that pass (first conjunct: `rest` is arbitrary and
absent from the result) — and when the failing normal handler was invoked
directly by `execute` (no enclosing handler awaiting its continuation), `e2`
propagates out of `execute` (second conjunct).  Each enclosing normal handler
awaiting `next`, however, catches the propagated error and re-runs the
error-handler chain from the start with the new error (see the
counterexample). -/
theorem c4_error_handler_throw_amended (qs : List (String × String))
    (u : String) (e2 : Err) (rest : List ErrorMiddlewareRegistration)
    (a : String) (e : Err) (es : Bool) (ctx : Ctx) (h : ctx.error = none) :
    (∀ c : Ctx, handleError (qs.map ehWrapReg ++ ehThrowReg u e2 :: rest) c e
        = .thrown { c with store := c.store ++ qs.map (fun q => q.1 ++ e.message)
            ++ [u ++ e.message] } e2) ∧
    MiddlewareChain.execute
        ⟨[throwReg a e], qs.map ehWrapReg ++ ehThrowReg u e2 :: rest, es⟩ ctx
      = .thrown ({ ctx with store :=
          ctx.store ++ [a] ++ qs.map (fun q => q.1 ++ e.message)
            ++ [u ++ e.message] }) e2 := by
  have hpass : ∀ c : Ctx,
      handleError (qs.map ehWrapReg ++ ehThrowReg u e2 :: rest) c e
        = .thrown { c with store := c.store ++ qs.map (fun q => q.1 ++ e.message)
            ++ [u ++ e.message] } e2 := by
    intro c
    have hne : (qs.map ehWrapReg ++ ehThrowReg u e2 :: rest).isEmpty = false := by
      cases hq : qs.map ehWrapReg <;> simp [hq]
    simp [handleError, hne, handleErrorNext_wraps_then_throw]
  refine ⟨hpass, ?_⟩
  have hfilter : ([throwReg a e]).filter (fun r => regMatches r ctx)
      = [throwReg a e] := by
    apply filter_of_condition_none
    intro r hr
    rcases List.mem_singleton.mp hr with rfl
    rfl
  simp only [MiddlewareChain.execute]
  rw [hfilter]
  have hp := hpass (pushStore a ctx)
  simp only [pushStore, h] at hp
  simp [execNext, h, throwReg, runBody, pushStore, hp, List.append_assoc]

/-- Witness for the amended C4: one cooperative error handler, then one that
throws e2, then one more that should never run; the trailing handler leaves no
trace and `execute` rejects with e2. -/
theorem c4_error_handler_throw_amended_witness :
    (handleError
        ([("E1-", "E1x-")].map ehWrapReg
          ++ ehThrowReg "T-" ⟨"e2"⟩ :: [ehWrapReg ("E3-", "E3x-")]) ctx0 ⟨"e1"⟩
      = .thrown { ctx0 with store := ctx0.store
          ++ [("E1-", "E1x-")].map (fun q => q.1 ++ Err.message ⟨"e1"⟩)
          ++ ["T-" ++ Err.message ⟨"e1"⟩] } ⟨"e2"⟩) ∧
    MiddlewareChain.execute
        ⟨[throwReg "B" ⟨"e1"⟩],
          [("E1-", "E1x-")].map ehWrapReg
            ++ ehThrowReg "T-" ⟨"e2"⟩ :: [ehWrapReg ("E3-", "E3x-")], false⟩ ctx0
      = .thrown { ctx0 with store := ctx0.store ++ ["B"]
          ++ [("E1-", "E1x-")].map (fun q => q.1 ++ Err.message ⟨"e1"⟩)
          ++ ["T-" ++ Err.message ⟨"e1"⟩] } ⟨"e2"⟩ := by
  have h := c4_error_handler_throw_amended [("E1-", "E1x-")] "T-" ⟨"e2"⟩
    [ehWrapReg ("E3-", "E3x-")] "B" ⟨"e1"⟩ false ctx0 rfl
  exact ⟨h.1 ctx0, h.2⟩

/-- C5: after a successful registration under explicit nonempty name `n`, a
second registration resolving to the same name via `use`, `insertBefore` or
`insertAfter` throws the duplicate-name error and leaves the chain unchanged
(the returned chain state is the post-first-registration chain itself), and
the first registration had raised the count by exactly one (e.g. to 1 on a
previously empty chain). -/
theorem c5_duplicate_name_rejected (c : MiddlewareChain) (n : String)
    (mw mw2 : Middleware) (cond cond2 : Option MiddlewareCondition)
    (hn : n ≠ "") (hok : (c.use mw cond (some n)).2 = none) :
    (c.use mw cond (some n)).1.use mw2 cond2 (some n)
        = ((c.use mw cond (some n)).1, some ⟨dupMsg n⟩) ∧
    (c.use mw cond (some n)).1.insertBefore n mw2 cond2 (some n)
        = ((c.use mw cond (some n)).1, .error ⟨dupMsg n⟩) ∧
    (c.use mw cond (some n)).1.insertAfter n mw2 cond2 (some n)
        = ((c.use mw cond (some n)).1, .error ⟨dupMsg n⟩) ∧
    (c.use mw cond (some n)).1.getMiddlewareCount = c.getMiddlewareCount + 1 := by
  have hres : ∀ fn auto : String, resolveName (some n) fn auto = n := by
    intro fn auto
    simp [resolveName, jsOr, hn]
  by_cases hdup : c.middlewares.any (fun m => m.name == n)
  · exfalso
    simp [MiddlewareChain.use, hres, hdup] at hok
  · have hc1 : (c.use mw cond (some n)).1
        = { c with middlewares := c.middlewares ++ [⟨n, mw, cond⟩] } := by
      simp [MiddlewareChain.use, hres, hdup]
    rw [hc1]
    refine ⟨?_, ?_, ?_, ?_⟩
    · simp [MiddlewareChain.use, hres]
    · cases hf : List.findIdx? (fun m : MiddlewareRegistration => m.name == n)
          c.middlewares with
      | none => simp [MiddlewareChain.insertBefore, hres, hf]
      | some i => simp [MiddlewareChain.insertBefore, hres, hf]
    · cases hf : List.findIdx? (fun m : MiddlewareRegistration => m.name == n)
          c.middlewares with
      | none => simp [MiddlewareChain.insertAfter, hres, hf]
      | some i => simp [MiddlewareChain.insertAfter, hres, hf]
    · simp [MiddlewareChain.getMiddlewareCount]

/-- Witness for C5: registering "auth" on an empty chain, then again under
the same name, throws and the count stays 1. -/
theorem c5_duplicate_name_rejected_witness :
    (MiddlewareChain.use ⟨[], [], false⟩ ⟨"", .noCall id⟩ none (some "auth")).1.use
        ⟨"", .noCall id⟩ none (some "auth")
      = ((MiddlewareChain.use ⟨[], [], false⟩ ⟨"", .noCall id⟩ none (some "auth")).1,
          some ⟨dupMsg "auth"⟩) ∧
    (MiddlewareChain.use ⟨[], [], false⟩ ⟨"", .noCall id⟩ none
        (some "auth")).1.getMiddlewareCount
      = MiddlewareChain.getMiddlewareCount ⟨[], [], false⟩ + 1 := by
  have h := c5_duplicate_name_rejected ⟨[], [], false⟩ "auth" ⟨"", .noCall id⟩
    ⟨"", .noCall id⟩ none none (by decide) rfl
  exact ⟨h.1, h.2.2.2⟩

/-- `if (!a) return false; ...` folds to a conjunction. -/
theorem if_not_then_false (a b : Bool) : (if (!a) = true then false else b) = (a && b) := by
  cases a <;> simp

/-- Decidable string equality agrees with its boolean test. -/
theorem decide_eq_beq (a b : String) : decide (a = b) = (a == b) := by
  by_cases h : a = b <;> simp [h]

/-- A decided universal disequality is the negated boolean membership test. -/
theorem decide_all_not_eq (ms : List String) (mv : String) :
    decide (∀ x ∈ ms, ¬x.toLower = mv.toLower)
      = !ms.any (fun x => x.toLower == mv.toLower) := by
  induction ms with
  | nil => simp
  | cons x xs ih =>
    by_cases hx : x.toLower = mv.toLower <;> simp [hx, ih]

/-- C6: `matchCondition condition ctx` returns true iff every present
constraint holds — the path constraint (prefix / pattern / predicate, skipped
when `ctx.path` is absent), the method constraint (case-insensitive string or
array, or predicate, skipped when `ctx.method` is absent) and the custom
`match` predicate; i.e. it is the conjunction of the three spec-side
constraint predicates. -/
theorem c6_match_condition_correct (condition : MiddlewareCondition) (ctx : Ctx) :
    matchCondition condition ctx
      = (pathConstraintSat condition ctx && methodConstraintSat condition ctx
          && customConstraintSat condition ctx) := by
  rcases condition with ⟨cp, cm, cf⟩
  rcases ctx with ⟨p, m, er, st⟩
  rcases cp with _ | pc <;> rcases p with _ | pv <;>
    rcases cm with _ | mc <;> rcases m with _ | mv <;>
    (try cases pc) <;> (try cases mc) <;> rcases cf with _ | f <;>
    simp [matchCondition, pathConstraintSat, methodConstraintSat,
      customConstraintSat, if_not_then_false, Bool.and_assoc] <;>
    simp only [decide_all_not_eq, decide_eq_beq, Bool.not_not]

/-- `insertSorted` is a permutation of consing. -/
theorem insertSorted_perm (d : MiddlewareDefinition) (l : List MiddlewareDefinition) :
    (insertSorted d l).Perm (d :: l) := by
  induction l with
  | nil => exact List.Perm.refl _
  | cons e es ih =>
    by_cases hle : prioOf d ≤ prioOf e
    · rw [insertSorted, if_pos hle]
    · rw [insertSorted, if_neg hle]
      exact (ih.cons e).trans (List.Perm.swap d e es)

/-- `insertSorted` preserves ascending priority order. -/
theorem insertSorted_sorted (d : MiddlewareDefinition) (l : List MiddlewareDefinition)
    (h : List.Sorted (fun a b => prioOf a ≤ prioOf b) l) :
    List.Sorted (fun a b => prioOf a ≤ prioOf b) (insertSorted d l) := by
  induction l with
  | nil => simp [insertSorted]
  | cons e es ih =>
    rw [List.sorted_cons] at h
    by_cases hle : prioOf d ≤ prioOf e
    · rw [insertSorted, if_pos hle]
      refine List.sorted_cons.mpr ⟨?_, List.sorted_cons.mpr h⟩
      intro b hb
      rcases List.mem_cons.mp hb with rfl | hb
      · exact hle
      · exact le_trans hle (h.1 b hb)
    · rw [insertSorted, if_neg hle]
      refine List.sorted_cons.mpr ⟨?_, ih h.2⟩
      intro b hb
      have hb2 : b ∈ d :: es := (insertSorted_perm d es).mem_iff.mp hb
      rcases List.mem_cons.mp hb2 with rfl | hb3
      · exact le_of_lt (lt_of_not_le hle)
      · exact h.1 b hb3

/-- Inserting an element of a different priority leaves each priority class
untouched; inserting one of the same priority puts it in front of its
class — the stability equation. -/
theorem insertSorted_filter (d : MiddlewareDefinition)
    (l : List MiddlewareDefinition) (p : Int) :
    (insertSorted d l).filter (fun x => prioOf x == p)
      = if prioOf d == p then d :: l.filter (fun x => prioOf x == p)
        else l.filter (fun x => prioOf x == p) := by
  induction l with
  | nil =>
    by_cases hdp : (prioOf d == p) = true <;>
      simp [insertSorted, List.filter_cons, hdp]
  | cons e es ih =>
    by_cases hle : prioOf d ≤ prioOf e
    · rw [insertSorted, if_pos hle]
      by_cases hdp : (prioOf d == p) = true <;>
        simp [List.filter_cons, hdp]
    · rw [insertSorted, if_neg hle]
      by_cases hdp : (prioOf d == p) = true
      · have hep : (prioOf e == p) = false := by
          have hlt : prioOf e < prioOf d := lt_of_not_le hle
          have hdp2 : prioOf d = p := by simpa using hdp
          rw [beq_eq_false_iff_ne]
          omega
        simp [List.filter_cons, hep, ih, hdp]
      · by_cases hep : (prioOf e == p) = true <;>
          simp [List.filter_cons, hep, ih, hdp]

/-- The registration order used by `registerAll` is a permutation of the
input. -/
theorem sortByPriority_perm (l : List MiddlewareDefinition) :
    (sortByPriority l).Perm l := by
  induction l with
  | nil => exact List.Perm.refl _
  | cons d ds ih =>
    exact (insertSorted_perm d (sortByPriority ds)).trans (ih.cons d)

/-- The registration order used by `registerAll` is ascending in priority. -/
theorem sortByPriority_sorted (l : List MiddlewareDefinition) :
    List.Sorted (fun a b => prioOf a ≤ prioOf b) (sortByPriority l) := by
  induction l with
  | nil => simp [sortByPriority]
  | cons d ds ih => exact insertSorted_sorted d (sortByPriority ds) ih

/-- The registration order used by `registerAll` is stable: each priority
class keeps its input relative order. -/
theorem sortByPriority_stable (l : List MiddlewareDefinition) (p : Int) :
    (sortByPriority l).filter (fun x => prioOf x == p)
      = l.filter (fun x => prioOf x == p) := by
  induction l with
  | nil => rfl
  | cons d ds ih =>
    rw [sortByPriority, insertSorted_filter, List.filter_cons]
    by_cases hdp : (prioOf d == p) = true <;> simp [hdp, ih]

/-- `Map.get` after `Map.set`. -/
theorem mapGet_mapSet {α : Type} (m : List (String × α)) (k x : String) (v : α) :
    mapGet (mapSet m k v) x = if x == k then some v else mapGet m x := by
  by_cases hx : x = k
  · subst hx
    induction m with
    | nil => simp [mapGet, mapSet]
    | cons q qs ih =>
      by_cases hq : (q.1 == x) = true
      · simp [mapSet, hq, mapGet]
      · simp [mapSet, hq, mapGet, ih]
  · have hbx : (x == k) = false := beq_eq_false_iff_ne.mpr hx
    have hkx : (k == x) = false := beq_eq_false_iff_ne.mpr (fun h => hx h.symm)
    induction m with
    | nil => simp [mapGet, mapSet, hbx, hkx]
    | cons q qs ih =>
      by_cases hq : (q.1 == k) = true
      · have hqx : (q.1 == x) = false := by
          rw [beq_eq_false_iff_ne]
          intro h
          exact hx (h ▸ eq_of_beq hq)
        simp [mapSet, hq, mapGet, hkx, hqx, hbx]
      · simp [mapSet, hq, mapGet, ih, hbx]

/-- `register` on a fresh, default-chain definition succeeds, appends the
definition's name to the default chain's handler list, and leaves every other
definition-table entry unchanged. -/
theorem register_fresh (m : MiddlewareManager) (d : MiddlewareDefinition)
    (hname : d.name ≠ "") (hc : d.chain.getD "default" = "default")
    (hdefs : mapGet m.definitions d.name = none)
    (hfresh : d.name ∉ m.listByChain "default") :
    (m.register d).2 = none ∧
    (m.register d).1.listByChain "default"
      = m.listByChain "default" ++ [d.name] ∧
    (∀ x : String, x ≠ d.name →
      mapGet (m.register d).1.definitions x = mapGet m.definitions x) := by
  have hres : ∀ fn auto : String, resolveName (some d.name) fn auto = d.name := by
    intro fn auto
    simp [resolveName, jsOr, hname]
  cases hch : mapGet m.chains "default" with
  | none =>
    refine ⟨?_, ?_, ?_⟩
    · simp [MiddlewareManager.register, hc, hdefs, getOrCreateChain, hch,
        MiddlewareChain.use, hres]
    · simp [MiddlewareManager.register, hc, hdefs, getOrCreateChain, hch,
        MiddlewareChain.use, hres, MiddlewareManager.listByChain,
        mapGet_mapSet, MiddlewareChain.listMiddlewares]
    · intro x hxd
      have hxb : (x == d.name) = false := beq_eq_false_iff_ne.mpr hxd
      simp [MiddlewareManager.register, hc, hdefs, getOrCreateChain, hch,
        MiddlewareChain.use, hres, mapGet_mapSet, hxb]
  | some ch =>
    have hmem : d.name ∉ ch.middlewares.map (fun r => r.name) := by
      intro hdn
      apply hfresh
      simp [MiddlewareManager.listByChain, hch, MiddlewareChain.listMiddlewares]
      simpa using hdn
    have hany : ch.middlewares.any (fun r => r.name == d.name) = false := by
      rw [List.any_eq_false]
      intro r hr
      simp only [beq_iff_eq]
      intro hre
      exact hmem (List.mem_map.mpr ⟨r, hr, hre⟩)
    refine ⟨?_, ?_, ?_⟩
    · simp [MiddlewareManager.register, hc, hdefs, getOrCreateChain, hch,
        MiddlewareChain.use, hres, hany]
    · simp [MiddlewareManager.register, hc, hdefs, getOrCreateChain, hch,
        MiddlewareChain.use, hres, hany, MiddlewareManager.listByChain,
        mapGet_mapSet, MiddlewareChain.listMiddlewares]
    · intro x hxd
      have hxb : (x == d.name) = false := beq_eq_false_iff_ne.mpr hxd
      simp [MiddlewareManager.register, hc, hdefs, getOrCreateChain, hch,
        MiddlewareChain.use, hres, hany, mapGet_mapSet, hxb]

/-- The `registerAll` loop on fresh, default-chain definitions with pairwise
distinct names succeeds and appends the names, in loop order, to the default
chain. -/
theorem registerMany_fresh (ds : List MiddlewareDefinition)
    (m : MiddlewareManager)
    (hval : ∀ d ∈ ds, d.name ≠ "" ∧ d.chain.getD "default" = "default")
    (hnodup : (ds.map (fun d => d.name)).Nodup)
    (hdefs : ∀ d ∈ ds, mapGet m.definitions d.name = none)
    (hfresh : ∀ d ∈ ds, d.name ∉ m.listByChain "default") :
    (registerMany m ds).2 = none ∧
    (registerMany m ds).1.listByChain "default"
      = m.listByChain "default" ++ ds.map (fun d => d.name) := by
  induction ds generalizing m with
  | nil => simp [registerMany]
  | cons d rest ih =>
    obtain ⟨h1, h2⟩ := hval d (List.mem_cons_self d rest)
    have hstep := register_fresh m d h1 h2
      (hdefs d (List.mem_cons_self d rest)) (hfresh d (List.mem_cons_self d rest))
    have hdne : ∀ d' ∈ rest, d'.name ≠ d.name := by
      intro d' hd' he
      rw [List.map_cons, List.nodup_cons] at hnodup
      exact hnodup.1 (he ▸ List.mem_map.mpr ⟨d', hd', rfl⟩)
    have hrest := ih (m.register d).1
      (fun d' hd' => hval d' (List.mem_cons_of_mem d hd'))
      (by
        rw [List.map_cons, List.nodup_cons] at hnodup
        exact hnodup.2)
      (fun d' hd' => by
        rw [hstep.2.2 d'.name (hdne d' hd')]
        exact hdefs d' (List.mem_cons_of_mem d hd'))
      (fun d' hd' => by
        rw [hstep.2.1]
        intro hmem
        rcases List.mem_append.mp hmem with hl | hl
        · exact hfresh d' (List.mem_cons_of_mem d hd') hl
        · exact hdne d' hd' (List.mem_singleton.mp hl))
    have hun : registerMany m (d :: rest) = registerMany (m.register d).1 rest := by
      rw [registerMany]
      rcases hq : (m.register d).2 with _ | e
      · rfl
      · rw [hq] at hstep
        exact absurd hstep.1 (by simp)
    rw [hun]
    refine ⟨hrest.1, ?_⟩
    rw [hrest.2, hstep.2.1, List.map_cons, List.append_assoc]
    rfl

/-- C7: `registerAll` registers the definitions in the order of a stable
ascending sort by priority (default 100): on a fresh manager, with distinct
nonempty names targeting the default chain, registration succeeds and the
default chain's handler list — which is the execution order for unconditioned
handlers — is the names of `sortByPriority defs`, a list that is a permutation
of the input, ascending in effective priority, and stable (each priority class
keeps its input relative order). -/
theorem c7_priority_ordered_registration (defs : List MiddlewareDefinition)
    (hval : ∀ d ∈ defs, d.name ≠ "" ∧ d.chain.getD "default" = "default")
    (hnodup : (defs.map (fun d => d.name)).Nodup) :
    ((mkManager ⟨none, none⟩).registerAll defs).2 = none ∧
    ((mkManager ⟨none, none⟩).registerAll defs).1.listByChain "default"
      = (sortByPriority defs).map (fun d => d.name) ∧
    (sortByPriority defs).Perm defs ∧
    List.Sorted (fun a b => prioOf a ≤ prioOf b) (sortByPriority defs) ∧
    (∀ p : Int, (sortByPriority defs).filter (fun x => prioOf x == p)
      = defs.filter (fun x => prioOf x == p)) := by
  have hperm := sortByPriority_perm defs
  have hmany := registerMany_fresh (sortByPriority defs) (mkManager ⟨none, none⟩)
    (fun d hd => hval d (hperm.mem_iff.mp hd))
    ((hperm.map (fun d => d.name)).nodup_iff.mpr hnodup)
    (fun d hd => rfl)
    (fun d hd => by
      simp [mkManager, MiddlewareManager.listByChain, mapGet])
  refine ⟨hmany.1, ?_, hperm, sortByPriority_sorted defs,
    fun p => sortByPriority_stable defs p⟩
  have hempty : (mkManager ⟨none, none⟩).listByChain "default" = [] := by
    simp [mkManager, MiddlewareManager.listByChain, mapGet]
  simp only [MiddlewareManager.registerAll]
  rw [hmany.2, hempty]
  rfl

/-- Witness for C7: priorities [200, 50, 100] under names [a, b, c] register
successfully and the default chain lists them as [b, c, a] — ascending
priority order regardless of array input order. -/
theorem c7_priority_ordered_registration_witness :
    ((mkManager ⟨none, none⟩).registerAll defsPriority).2 = none ∧
    ((mkManager ⟨none, none⟩).registerAll defsPriority).1.listByChain "default"
      = ["b", "c", "a"] := by
  have h := c7_priority_ordered_registration defsPriority
    (by intro d hd; fin_cases hd <;> exact ⟨by decide, rfl⟩)
    (by decide)
  exact ⟨h.1, by rw [h.2.1]; rfl⟩

/-- C8: `MiddlewareManager.execute` on a chain name that does not exist in the
manager resolves to the untouched context: no handler is invoked and `ctx` is
not mutated (silent no-op). -/
theorem c8_missing_chain_noop (m : MiddlewareManager) (ctx : Ctx)
    (chainName : String) (h : mapGet m.chains chainName = none) :
    m.execute ctx chainName = .ok ctx := by
  simp [MiddlewareManager.execute, h]

/-- Witness for C8: executing a fresh manager's (nonexistent) default chain. -/
theorem c8_missing_chain_noop_witness :
    (mkManager ⟨none, none⟩).execute ctx0 "default" = .ok ctx0 :=
  c8_missing_chain_noop (mkManager ⟨none, none⟩) ctx0 "default" rfl

/-- `register` never reads `continueOnError`. -/
theorem register_coe (m : MiddlewareManager) (b : Bool) (d : MiddlewareDefinition) :
    MiddlewareManager.register { m with continueOnError := b } d
      = ({ (m.register d).1 with continueOnError := b }, (m.register d).2) := by
  cases hq : mapGet m.definitions d.name with
  | some dd => simp [MiddlewareManager.register, hq]
  | none =>
    cases hch : mapGet m.chains (d.chain.getD "default") with
    | none =>
      simp only [MiddlewareManager.register, hq, getOrCreateChain]
      cases hu : (MiddlewareChain.use
          ⟨[], [], m.enablePerformanceMonitoring⟩ d.handler d.condition
          (some d.name)).2 with
      | none => simp [hq, hch, hu]
      | some e => simp [hq, hch, hu]
    | some ch =>
      simp only [MiddlewareManager.register, hq, getOrCreateChain]
      cases hu : (ch.use d.handler d.condition (some d.name)).2 with
      | none => simp [hq, hch, hu]
      | some e => simp [hq, hch, hu]

/-- `registerError` never reads `continueOnError`. -/
theorem registerError_coe (m : MiddlewareManager) (b : Bool)
    (d : ErrorMiddlewareDefinition) :
    MiddlewareManager.registerError { m with continueOnError := b } d
      = ({ (m.registerError d).1 with continueOnError := b },
          (m.registerError d).2) := by
  cases hch : mapGet m.chains (d.chain.getD "default") with
  | none =>
    simp only [MiddlewareManager.registerError, getOrCreateChain]
    cases hu : (MiddlewareChain.useError
        ⟨[], [], m.enablePerformanceMonitoring⟩ d.handler (some d.name)).2 with
    | none => simp [hch, hu]
    | some e => simp [hch, hu]
  | some ch =>
    simp only [MiddlewareManager.registerError, getOrCreateChain]
    cases hu : (ch.useError d.handler (some d.name)).2 with
    | none => simp [hch, hu]
    | some e => simp [hch, hu]

/-- `remove` never reads `continueOnError`. -/
theorem remove_coe (m : MiddlewareManager) (b : Bool) (n : String) :
    MiddlewareManager.remove { m with continueOnError := b } n
      = ({ (m.remove n).1 with continueOnError := b }, (m.remove n).2) := by
  cases hq : mapGet m.definitions n with
  | none => simp [MiddlewareManager.remove, hq]
  | some dd =>
    cases hch : mapGet m.chains (dd.chain.getD "default") with
    | none => simp [MiddlewareManager.remove, hq, hch]
    | some ch => simp [MiddlewareManager.remove, hq, hch]

/-- The `registerAll` loop never reads `continueOnError`. -/
theorem registerMany_coe (ds : List MiddlewareDefinition)
    (m : MiddlewareManager) (b : Bool) :
    registerMany { m with continueOnError := b } ds
      = ({ (registerMany m ds).1 with continueOnError := b },
          (registerMany m ds).2) := by
  induction ds generalizing m with
  | nil => rfl
  | cons d rest ih =>
    simp only [registerMany, register_coe]
    cases hq : (m.register d).2 with
    | some e => simp [hq]
    | none => simp [hq, ih]

/-- `execute` never reads `continueOnError`. -/
theorem execute_coe (m : MiddlewareManager) (b : Bool) (ctx : Ctx) (n : String) :
    MiddlewareManager.execute { m with continueOnError := b } ctx n
      = m.execute ctx n := rfl

/-- One manager call never reads `continueOnError`: the observation is the
same and the flag is carried along unchanged. -/
theorem stepOp_coe (m : MiddlewareManager) (b : Bool) (op : MgrOp) :
    stepOp { m with continueOnError := b } op
      = ({ (stepOp m op).1 with continueOnError := b }, (stepOp m op).2) := by
  cases op with
  | reg d => simp [stepOp, register_coe]
  | regError d => simp [stepOp, registerError_coe]
  | regAll ds => simp [stepOp, MiddlewareManager.registerAll, registerMany_coe]
  | rem n => simp [stepOp, remove_coe]
  | exec ctx n => simp [stepOp, execute_coe]

/-- A whole call sequence observes nothing of `continueOnError`. -/
theorem runOps_coe (ops : List MgrOp) (m : MiddlewareManager) (b : Bool) :
    runOps { m with continueOnError := b } ops = runOps m ops := by
  induction ops generalizing m with
  | nil => rfl
  | cons op rest ih =>
    simp only [runOps, stepOp_coe]
    rw [ih]

/-- C9: two managers constructed identically except for the value of the
`continueOnError` option behave identically on every sequence of
registration, removal and `execute` calls: the option is stored but never
read by dispatch or error routing. -/
theorem c9_continue_on_error_unobservable
    (opts1 opts2 : MiddlewareManagerOptions)
    (h : opts1.enablePerformanceMonitoring = opts2.enablePerformanceMonitoring)
    (ops : List MgrOp) :
    runOps (mkManager opts1) ops = runOps (mkManager opts2) ops := by
  have key : mkManager opts2
      = { mkManager opts1 with
            continueOnError := opts2.continueOnError.getD true } := by
    simp [mkManager, h]
  rw [key]
  exact (runOps_coe ops (mkManager opts1) (opts2.continueOnError.getD true)).symm

/-- Witness for C9: `continueOnError := false` versus the default, on a
register-then-execute sequence. -/
theorem c9_continue_on_error_unobservable_witness :
    runOps (mkManager ⟨none, none⟩)
        [.reg ⟨"a", noopMw, none, none, none⟩, .exec ctx0 "default"]
      = runOps (mkManager ⟨none, some false⟩)
        [.reg ⟨"a", noopMw, none, none, none⟩, .exec ctx0 "default"] :=
  c9_continue_on_error_unobservable ⟨none, none⟩ ⟨none, some false⟩ rfl
    [.reg ⟨"a", noopMw, none, none, none⟩, .exec ctx0 "default"]

/-- C10: a `use` with no explicit name and an empty function name falls
through to the positional auto-name (first conjunct: the resolver returns the
auto-generated string, which `use` builds as `middleware-` + current handler
count).  Consequently — scenario conjuncts — registering two anonymous
handlers yields names middleware-0 and middleware-1; after removing
middleware-0 the count drops to 1, so a fresh anonymous registration resolves
to middleware-1 again and throws the duplicate-name error even though that
function was never registered before, leaving the chain unchanged. -/
theorem c10_auto_name_collision :
    (∀ s : String, resolveName none "" s = s) ∧
    anonStep1.2 = none ∧
    anonStep1.1.listMiddlewares = ["middleware-0"] ∧
    anonStep2.2 = none ∧
    anonStep2.1.listMiddlewares = ["middleware-0", "middleware-1"] ∧
    anonStep3.1 = true ∧
    anonStep3.2.listMiddlewares = ["middleware-1"] ∧
    anonStep4.2 = some ⟨dupMsg "middleware-1"⟩ ∧
    anonStep4.1.listMiddlewares = ["middleware-1"] := by
  refine ⟨fun s => ?_, rfl, rfl, rfl, rfl, rfl, rfl, rfl, rfl⟩
  simp [resolveName, jsOr]

end DreamerMiddleware
